import Mathlib

/-!
Verification of the PDF-to-AudioBook script (src/main.py).

Python strings are embedded as `List Char` (named `PyStr`).  Interactive
prompt loops are embedded as functions over the list of lines the user
types: the loop consumes inputs until one is accepted, and returns `none`
when the list is exhausted (the real loop would keep blocking on stdin).
Filesystem and subprocess effects are embedded as explicit state passing.
-/

/-- Python strings, embedded as lists of characters. -/
abbrev PyStr := List Char

/-- Whitespace test used by Python's `str.split()` / `str.strip()`
(ASCII whitespace: space, tab, newline, carriage return, vertical tab,
form feed). -/
def isPySpace (c : Char) : Bool :=
  c == ' ' || c == '\t' || c == '\n' || c == '\r' || c == Char.ofNat 11 || c == Char.ofNat 12

/-- Embedding of Python `s.strip()`: drop leading and trailing whitespace. -/
def stripC (l : PyStr) : PyStr :=
  ((l.dropWhile isPySpace).reverse.dropWhile isPySpace).reverse

/-- Worker for `wordsC`: scans the characters, accumulating the current
word in reverse in `acc`; whitespace flushes the accumulator. -/
def wordsAux : List Char → List Char → List (List Char)
  | [], acc => if acc = [] then [] else [acc.reverse]
  | c :: cs, acc =>
    if isPySpace c then
      if acc = [] then wordsAux cs [] else acc.reverse :: wordsAux cs []
    else wordsAux cs (c :: acc)

/-- Embedding of Python `text.split()` (split on whitespace runs,
discarding empty pieces). -/
def wordsC (l : PyStr) : List PyStr := wordsAux l []

/-- Embedding of Python `" ".join(ws)`. -/
def intercalSpace : List PyStr → PyStr
  | [] => []
  | [w] => w
  | w :: ws => w ++ ' ' :: intercalSpace ws

/-- Whitespace normalization `" ".join(text.split())` from `chunk_text`
(src/main.py line 96): collapse whitespace runs to single spaces and trim. -/
def normalizeC (l : PyStr) : PyStr := intercalSpace (wordsC l)

/-- Fixed-size slicing loop of `chunk_text` (src/main.py lines 97-98):
`for i in range(0, len(text), max_chars): yield text[i : i + max_chars]`.
The first argument is fuel bounding the number of slices; `chunk_text`
passes the text length, which suffices whenever `max_chars > 0`
(with `max_chars = 0` Python's `range` raises, which is outside the
spec's `M > 0` contract). -/
def chunksGo (max_chars : Nat) : Nat → PyStr → List PyStr
  | 0, _ => []
  | k + 1, l => if l = [] then [] else l.take max_chars :: chunksGo max_chars k (l.drop max_chars)

/-- Embedding of `chunk_text(text, max_chars)` (src/main.py lines 90-98):
normalize whitespace, then yield contiguous slices of `max_chars` characters. -/
def chunk_text (text : PyStr) (max_chars : Nat) : List PyStr :=
  chunksGo max_chars (normalizeC text).length (normalizeC text)

/-- Concatenation of a list of strings (used to state chunk coverage). -/
def joinL : List PyStr → PyStr
  | [] => []
  | x :: xs => x ++ joinL xs

-- ### Lemmas about words / normalization

lemma wordsAux_sound : ∀ (l acc : List Char), (∀ c ∈ acc, isPySpace c = false) →
    ∀ w ∈ wordsAux l acc, w ≠ [] ∧ ∀ c ∈ w, isPySpace c = false := by
  intro l
  induction l with
  | nil =>
    intro acc hacc w hw
    by_cases h : acc = []
    · simp [wordsAux, h] at hw
    · simp [wordsAux, h] at hw
      subst hw
      refine ⟨by simpa using h, ?_⟩
      intro c hc
      exact hacc c (List.mem_reverse.mp hc)
  | cons c cs ih =>
    intro acc hacc w hw
    by_cases hs : isPySpace c
    · by_cases h : acc = []
      · simp [wordsAux, hs, h] at hw
        exact ih [] (by simp) w hw
      · simp [wordsAux, hs, h] at hw
        rcases hw with hw | hw
        · subst hw
          refine ⟨by simpa using h, ?_⟩
          intro d hd
          exact hacc d (List.mem_reverse.mp hd)
        · exact ih [] (by simp) w hw
    · simp only [wordsAux, hs] at hw
      simp only [Bool.false_eq_true, if_false] at hw
      refine ih (c :: acc) ?_ w hw
      intro d hd
      rcases List.mem_cons.mp hd with h | h
      · subst h; simpa using hs
      · exact hacc d h

lemma wordsAux_append_word : ∀ (w : List Char), (∀ c ∈ w, isPySpace c = false) →
    ∀ (l acc : List Char), wordsAux (w ++ l) acc = wordsAux l (w.reverse ++ acc) := by
  intro w
  induction w with
  | nil => intro _ l acc; simp
  | cons c w' ih =>
    intro hw l acc
    have hc : isPySpace c = false := hw c (by simp)
    have hw' : ∀ d ∈ w', isPySpace d = false := fun d hd => hw d (by simp [hd])
    simp only [List.cons_append, wordsAux, hc, Bool.false_eq_true, if_false, List.append_eq]
    rw [ih hw' l (c :: acc)]
    simp [List.append_assoc]

lemma wordsAux_space (l acc : List Char) :
    wordsAux (' ' :: l) acc =
      if acc = [] then wordsAux l [] else acc.reverse :: wordsAux l [] := by
  simp [wordsAux, isPySpace]

lemma wordsC_intercalSpace : ∀ (ws : List PyStr),
    (∀ w ∈ ws, w ≠ [] ∧ ∀ c ∈ w, isPySpace c = false) →
    wordsC (intercalSpace ws) = ws := by
  intro ws
  induction ws with
  | nil => intro _; rfl
  | cons w ws ih =>
    intro h
    have hw := h w (by simp)
    cases ws with
    | nil =>
      show wordsAux (intercalSpace [w]) [] = [w]
      have : intercalSpace [w] = w := rfl
      rw [this]
      have := wordsAux_append_word w hw.2 [] []
      simp only [List.append_nil] at this
      rw [this]
      simp [wordsAux, hw.1]
    | cons w' ws' =>
      show wordsAux (intercalSpace (w :: w' :: ws')) [] = w :: w' :: ws'
      have hstep : intercalSpace (w :: w' :: ws') = w ++ ' ' :: intercalSpace (w' :: ws') := rfl
      rw [hstep, wordsAux_append_word w hw.2 (' ' :: intercalSpace (w' :: ws')) [],
        List.append_nil, wordsAux_space]
      have hwr : w.reverse ≠ [] := by simpa using hw.1
      rw [if_neg hwr, List.reverse_reverse]
      have := ih (fun u hu => h u (by simp [hu]))
      rw [show wordsAux (intercalSpace (w' :: ws')) [] = wordsC (intercalSpace (w' :: ws')) from rfl,
        this]

/-- C8: whitespace normalization (collapse runs of whitespace to single
spaces and trim, as performed by `" ".join(text.split())` in `chunk_text`)
is idempotent: normalizing an already-normalized string returns it
unchanged. -/
theorem normalizeC_idem (s : PyStr) : normalizeC (normalizeC s) = normalizeC s := by
  show intercalSpace (wordsC (intercalSpace (wordsC s))) = intercalSpace (wordsC s)
  rw [wordsC_intercalSpace (wordsC s) (wordsAux_sound s [] (by simp))]

-- ### Lemmas about chunking

lemma chunksGo_nil (M k : Nat) : chunksGo M k [] = [] := by
  cases k <;> simp [chunksGo]

lemma chunksGo_join (M : Nat) : ∀ (k : Nat) (l : PyStr), 0 < M → l.length ≤ k →
    joinL (chunksGo M k l) = l := by
  intro k
  induction k with
  | zero =>
    intro l _ hl
    have : l = [] := List.eq_nil_of_length_eq_zero (Nat.le_zero.mp hl)
    subst this
    rfl
  | succ k ih =>
    intro l hM hl
    by_cases h : l = []
    · subst h; rfl
    · simp only [chunksGo, h, if_false, joinL]
      rw [ih (l.drop M) hM (by simp [List.length_drop]; omega)]
      exact List.take_append_drop M l

lemma chunksGo_mem (M : Nat) : ∀ (k : Nat) (l : PyStr) (c : PyStr),
    c ∈ chunksGo M k l → c.length ≤ M := by
  intro k
  induction k with
  | zero => intro l c hc; simp [chunksGo] at hc
  | succ k ih =>
    intro l c hc
    by_cases h : l = []
    · simp [chunksGo, h] at hc
    · simp only [chunksGo, h, if_false, List.mem_cons] at hc
      rcases hc with hc | hc
      · subst hc; simp [List.length_take]
      · exact ih (l.drop M) c hc

lemma chunksGo_length (M : Nat) : ∀ (k : Nat) (l : PyStr), 0 < M → l.length ≤ k →
    (chunksGo M k l).length = (l.length + M - 1) / M := by
  intro k
  induction k with
  | zero =>
    intro l hM hl
    have hnil : l = [] := List.eq_nil_of_length_eq_zero (Nat.le_zero.mp hl)
    subst hnil
    simp only [chunksGo, List.length_nil]
    exact (Nat.div_eq_of_lt (by omega)).symm
  | succ k ih =>
    intro l hM hl
    by_cases h : l = []
    · subst h
      simp only [chunksGo, if_pos rfl, List.length_nil]
      exact (Nat.div_eq_of_lt (by omega)).symm
    · have hpos : 0 < l.length := List.length_pos.mpr h
      simp only [chunksGo, h, if_false, List.length_cons]
      rw [ih (l.drop M) hM (by rw [List.length_drop]; omega)]
      rw [List.length_drop]
      by_cases hcase : l.length ≤ M
      · have hdrop : l.length - M = 0 := by omega
        rw [hdrop, Nat.div_eq_of_lt (show 0 + M - 1 < M by omega)]
        have hone : (l.length + M - 1) / M = 1 :=
          Nat.div_eq_of_lt_le (by omega) (by omega)
        omega
      · have h1 : l.length - M + M - 1 = l.length - 1 := by omega
        have h2 : l.length + M - 1 = (l.length - 1) + M := by omega
        rw [h1, h2, Nat.add_div_right _ hM]

lemma mem_joinL_infix : ∀ (L : List PyStr) (c : PyStr), c ∈ L → c <:+: joinL L := by
  intro L
  induction L with
  | nil => intro c hc; simp at hc
  | cons x xs ih =>
    intro c hc
    rcases List.mem_cons.mp hc with h | h
    · subst h
      exact ⟨[], joinL xs, by simp [joinL]⟩
    · rcases ih c h with ⟨s, t, hst⟩
      exact ⟨x ++ s, t, by simp [joinL, ← hst]⟩

/-- C1: for every text `T` and chunk size `M > 0`, `chunk_text T M` is a
list of contiguous substrings of the whitespace-collapsed form of `T`,
each of length at most `M`, whose concatenation is exactly the collapsed
text; there are `ceil (len (collapsed T) / M)` chunks, and zero chunks
when the collapsed text is empty. -/
theorem chunk_text_spec (t : PyStr) (M : Nat) (hM : 0 < M) :
    joinL (chunk_text t M) = normalizeC t ∧
    (∀ c ∈ chunk_text t M, c.length ≤ M ∧ c <:+: normalizeC t) ∧
    (chunk_text t M).length = ((normalizeC t).length + M - 1) / M ∧
    (normalizeC t = [] → chunk_text t M = []) := by
  refine ⟨?_, ?_, ?_, ?_⟩
  · exact chunksGo_join M _ _ hM le_rfl
  · intro c hc
    refine ⟨chunksGo_mem M _ _ c hc, ?_⟩
    rw [← chunksGo_join M (normalizeC t).length (normalizeC t) hM le_rfl]
    exact mem_joinL_infix _ c hc
  · exact chunksGo_length M _ _ hM le_rfl
  · intro h
    simp only [chunk_text, h]
    rfl

/-- Witness for C1 at a concrete input: the text made of the characters
of the string `ab  cd e` with chunk size 3. -/
theorem chunk_text_spec_witness :
    joinL (chunk_text ['a', 'b', ' ', ' ', 'c', 'd', ' ', 'e'] 3) =
      normalizeC ['a', 'b', ' ', ' ', 'c', 'd', ' ', 'e'] ∧
    (∀ c ∈ chunk_text ['a', 'b', ' ', ' ', 'c', 'd', ' ', 'e'] 3,
      c.length ≤ 3 ∧ c <:+: normalizeC ['a', 'b', ' ', ' ', 'c', 'd', ' ', 'e']) ∧
    (chunk_text ['a', 'b', ' ', ' ', 'c', 'd', ' ', 'e'] 3).length =
      ((normalizeC ['a', 'b', ' ', ' ', 'c', 'd', ' ', 'e']).length + 3 - 1) / 3 ∧
    (normalizeC ['a', 'b', ' ', ' ', 'c', 'd', ' ', 'e'] = [] →
      chunk_text ['a', 'b', ' ', ' ', 'c', 'd', ' ', 'e'] 3 = []) :=
  chunk_text_spec ['a', 'b', ' ', ' ', 'c', 'd', ' ', 'e'] 3 (by decide)

-- ### PDF text extraction (src/main.py lines 66-84)

/-- The `parts` accumulation loop of `extract_pdf_text`: per page, strip
the extracted text and keep it only when non-empty. -/
def extractParts : List PyStr → List PyStr
  | [] => []
  | pg :: rest =>
    if stripC pg = [] then extractParts rest else stripC pg :: extractParts rest

/-- Embedding of Python `"\n".join(parts)`. -/
def joinNl : List PyStr → PyStr
  | [] => []
  | [p] => p
  | p :: ps => p ++ '\n' :: joinNl ps

/-- Embedding of `extract_pdf_text` (src/main.py lines 66-84), with the
PDF reader's per-page raw text as input: early-return the empty string
for a page-less document, otherwise strip each page's text, keep the
non-empty ones, join them with a newline and strip the result. -/
def extract_pdf_text (pages : List PyStr) : PyStr :=
  if pages = [] then [] else stripC (joinNl (extractParts pages))

lemma extractParts_eq_filter (pages : List PyStr) :
    extractParts pages = (pages.map stripC).filter (fun t => !t.isEmpty) := by
  induction pages with
  | nil => rfl
  | cons pg rest ih =>
    by_cases h : stripC pg = []
    · simp [extractParts, h, List.filter, ih]
    · simp only [extractParts, h, if_false, List.map_cons, List.filter_cons]
      rw [if_pos (by simp [List.isEmpty_iff, h]), ih]

/-- C3 counterexample: on a one-page document whose page text is
`a<space><space>b`, `extract_pdf_text` returns that text verbatim, which
is not whitespace-collapsed (collapsing it changes it), contradicting the
claim that the returned string is whitespace-collapsed. -/
theorem extract_pdf_text_not_collapsed :
    extract_pdf_text [['a', ' ', ' ', 'b']] = ['a', ' ', ' ', 'b'] ∧
    normalizeC (extract_pdf_text [['a', ' ', ' ', 'b']]) ≠
      extract_pdf_text [['a', ' ', ' ', 'b']] := by
  refine ⟨by decide, by decide⟩

/-- C3 (amended): `extract_pdf_text` returns the newline-join of the
non-empty stripped per-page texts, trimmed of leading and trailing
whitespace — but NOT whitespace-collapsed (collapsing happens later, in
`chunk_text`); a document with no pages, or whose every page strips to
the empty string, yields the empty string. -/
theorem extract_pdf_text_spec (pages : List PyStr) :
    extract_pdf_text pages = stripC (joinNl ((pages.map stripC).filter (fun t => !t.isEmpty))) ∧
    ((∀ p ∈ pages, stripC p = []) → extract_pdf_text pages = []) ∧
    extract_pdf_text [] = [] := by
  refine ⟨?_, ?_, rfl⟩
  · by_cases h : pages = []
    · subst h; rfl
    · simp only [extract_pdf_text, h, if_false, extractParts_eq_filter]
  · intro hall
    have hparts : extractParts pages = [] := by
      rw [extractParts_eq_filter]
      rw [List.filter_eq_nil_iff]
      intro t ht
      rcases List.mem_map.mp ht with ⟨p, hp, hpt⟩
      simp [← hpt, hall p hp, List.isEmpty_iff]
    by_cases h : pages = []
    · subst h; rfl
    · simp [extract_pdf_text, h, hparts]
      rfl

/-- Witness for C3's amended theorem at a concrete input: a two-page
document whose pages both strip to the empty string. -/
theorem extract_pdf_text_spec_witness :
    extract_pdf_text [[' ', ' '], ['\n']] =
      stripC (joinNl (([[' ', ' '], ['\n']].map stripC).filter (fun t => !t.isEmpty))) ∧
    extract_pdf_text [[' ', ' '], ['\n']] = [] :=
  ⟨(extract_pdf_text_spec [[' ', ' '], ['\n']]).1,
   (extract_pdf_text_spec [[' ', ' '], ['\n']]).2.1 (by decide)⟩

-- ### Interactive settings (src/main.py lines 104-222)

/-- Embedding of Python `s.isdigit()` for ASCII strings: non-empty and
all characters are decimal digits. -/
def isdigitC (l : PyStr) : Bool :=
  !l.isEmpty && l.all (fun c => decide ('0' ≤ c) && decide (c ≤ '9'))

/-- Embedding of Python `int(s)` on a digit string: decimal value. -/
def toNatC (l : PyStr) : Nat :=
  l.foldl (fun n c => 10 * n + (c.toNat - '0'.toNat)) 0

/-- Embedding of Python `s.upper()` (ASCII). -/
def upperC (l : PyStr) : PyStr := l.map Char.toUpper

/-- Embedding of Python `s.lower()` (ASCII). -/
def lowerC (l : PyStr) : PyStr := l.map Char.toLower

def strWav : PyStr := ['w', 'a', 'v']
def strMp3 : PyStr := ['m', 'p', '3']
def strS : PyStr := ['S']
def strR : PyStr := ['R']
def strB : PyStr := ['B']
def strUnknown : PyStr := ['U', 'n', 'k', 'n', 'o', 'w', 'n']

/-- A voice exposed by the speech engine, with the attributes `list_voices`
reads (a missing attribute is embedded as the empty string, matching
`getattr(v, ..., "") or ...`). -/
structure Voice where
  name : PyStr
  id : PyStr
deriving DecidableEq

/-- Enumeration loop of `list_voices` (src/main.py lines 104-117), with
the running index made explicit. -/
def list_voices_aux (i : Nat) : List Voice → List (Nat × PyStr × PyStr)
  | [] => []
  | v :: vs =>
    (i, if v.name = [] then strUnknown else v.name, v.id) :: list_voices_aux (i + 1) vs

/-- Embedding of `list_voices` (src/main.py lines 104-117): the engine's
voices as `(index, display_name, voice_id)` triples. -/
def list_voices (vs : List Voice) : List (Nat × PyStr × PyStr) := list_voices_aux 0 vs

/-- Prompt loop of `choose_voice` (src/main.py lines 134-142): blank
input means the default voice (`none`); a digit string in range returns
that voice's id; anything else re-prompts. -/
def choose_voice_loop (items : List (Nat × PyStr × PyStr)) : List PyStr → Option (Option PyStr × List PyStr)
  | [] => none
  | s :: rest =>
    if stripC s = [] then some (none, rest)
    else if h : isdigitC (stripC s) = true ∧ toNatC (stripC s) < items.length then
      some (some ((items.get ⟨toNatC (stripC s), h.2⟩).2.2), rest)
    else choose_voice_loop items rest

/-- Embedding of `choose_voice` (src/main.py lines 120-142): with no
voices available it immediately returns the default (no prompt, no input
consumed); otherwise it runs the prompt loop. -/
def choose_voice (voices : List Voice) (inputs : List PyStr) : Option (Option PyStr × List PyStr) :=
  if list_voices voices = [] then some (none, inputs)
  else choose_voice_loop (list_voices voices) inputs

/-- Acceptance condition of the rate prompt (src/main.py lines 156-159):
a digit string whose value lies in [80, 350]. -/
def acceptRate (t : PyStr) : Prop :=
  isdigitC t = true ∧ 80 ≤ toNatC t ∧ toNatC t ≤ 350

instance (t : PyStr) : Decidable (acceptRate t) := by
  unfold acceptRate
  infer_instance

/-- Embedding of `choose_rate` (src/main.py lines 148-160): blank input
returns the default, a digit string in [80, 350] is accepted, anything
else re-prompts. -/
def choose_rate (default_rate : Nat) : List PyStr → Option (Nat × List PyStr)
  | [] => none
  | s :: rest =>
    if stripC s = [] then some (default_rate, rest)
    else if acceptRate (stripC s) then some (toNatC (stripC s), rest)
    else choose_rate default_rate rest

/-- Embedding of `choose_mode` (src/main.py lines 163-177): input is
stripped and upper-cased; blank defaults to Speak (`S`); `S`, `R`, `B`
are accepted; anything else re-prompts. -/
def choose_mode : List PyStr → Option (PyStr × List PyStr)
  | [] => none
  | s :: rest =>
    if upperC (stripC s) = [] then some (strS, rest)
    else if upperC (stripC s) = strS ∨ upperC (stripC s) = strR ∨ upperC (stripC s) = strB then
      some (upperC (stripC s), rest)
    else choose_mode rest

/-- Prompt loop of `choose_save_format` (src/main.py lines 199-205):
input is stripped and lower-cased; blank defaults to `wav`; `wav` and
`mp3` are accepted; anything else re-prompts. -/
def choose_save_format_loop : List PyStr → Option (PyStr × List PyStr)
  | [] => none
  | s :: rest =>
    if lowerC (stripC s) = [] then some (strWav, rest)
    else if lowerC (stripC s) = strWav ∨ lowerC (stripC s) = strMp3 then
      some (lowerC (stripC s), rest)
    else choose_save_format_loop rest

/-- Embedding of `choose_save_format` (src/main.py lines 188-205): when
ffmpeg is not detected, return `wav` without prompting (no input is
consumed); otherwise run the prompt loop.  `ffmpeg : Bool` embeds the
result of `has_ffmpeg()` (src/main.py lines 180-185). -/
def choose_save_format (ffmpeg : Bool) (inputs : List PyStr) : Option (PyStr × List PyStr) :=
  if ffmpeg = false then some (strWav, inputs)
  else choose_save_format_loop inputs

/-- Embedding of the `TTSSettings` dataclass (src/main.py lines 33-38). -/
structure TTSSettings where
  voice_id : Option PyStr
  rate : Nat
  mode : PyStr
  save_format : PyStr
deriving DecidableEq

/-- Embedding of `collect_settings` (src/main.py lines 208-222): run the
four prompts in order against the stream of typed input lines; the save
format is only asked for when the chosen mode records, and defaults to
`wav` otherwise. -/
def collect_settings (voices : List Voice) (ffmpeg : Bool) (inputs : List PyStr) :
    Option (TTSSettings × List PyStr) :=
  match choose_voice voices inputs with
  | none => none
  | some (voice_id, i1) =>
    match choose_rate 170 i1 with
    | none => none
    | some (rate, i2) =>
      match choose_mode i2 with
      | none => none
      | some (mode, i3) =>
        if mode = strR ∨ mode = strB then
          match choose_save_format ffmpeg i3 with
          | none => none
          | some (fmt, i4) => some (⟨voice_id, rate, mode, fmt⟩, i4)
        else some (⟨voice_id, rate, mode, strWav⟩, i3)

-- ### Lemmas about the voice enumeration

lemma list_voices_aux_length : ∀ (vs : List Voice) (i : Nat),
    (list_voices_aux i vs).length = vs.length := by
  intro vs
  induction vs with
  | nil => intro i; rfl
  | cons v vs ih => intro i; simp [list_voices_aux, ih]

lemma list_voices_aux_get_id : ∀ (vs : List Voice) (i j : Nat) (h : j < vs.length)
    (h2 : j < (list_voices_aux i vs).length),
    ((list_voices_aux i vs).get ⟨j, h2⟩).2.2 = (vs.get ⟨j, h⟩).id := by
  intro vs
  induction vs with
  | nil => intro i j h _; simp at h
  | cons v vs ih =>
    intro i j h h2
    cases j with
    | zero => rfl
    | succ j =>
      simp only [list_voices_aux, List.get_cons_succ]
      exact ih (i + 1) j (by simpa using h) (by simpa [list_voices_aux_length] using h)

/-- C5: behavior of the rate prompt: `90` is accepted and returns 90;
`400` is rejected and re-prompts; blank returns the default 170; in
general an input is accepted exactly when its stripped form is a digit
string whose value lies in [80, 350], and any other input re-prompts. -/
theorem choose_rate_spec :
    (∀ rest, choose_rate 170 (['9', '0'] :: rest) = some (90, rest)) ∧
    (∀ rest, choose_rate 170 (['4', '0', '0'] :: rest) = choose_rate 170 rest) ∧
    (∀ rest, choose_rate 170 ([] :: rest) = some (170, rest)) ∧
    (∀ s rest, acceptRate (stripC s) →
      choose_rate 170 (s :: rest) = some (toNatC (stripC s), rest)) ∧
    (∀ s rest, stripC s ≠ [] → ¬acceptRate (stripC s) →
      choose_rate 170 (s :: rest) = choose_rate 170 rest) := by
  refine ⟨fun rest => rfl, fun rest => rfl, fun rest => rfl, ?_, ?_⟩
  · intro s rest h
    have hne : stripC s ≠ [] := by
      intro he
      rw [he] at h
      exact absurd h.1 (by decide)
    simp only [choose_rate]
    rw [if_neg hne, if_pos h]
  · intro s rest hne h
    simp only [choose_rate]
    rw [if_neg hne, if_neg h]

/-- Witness for C5's conditional clauses at concrete inputs: `120` is
accepted (a digit string in range), `79` is rejected and re-prompts. -/
theorem choose_rate_spec_witness :
    choose_rate 170 [['1', '2', '0']] = some (toNatC (stripC ['1', '2', '0']), []) ∧
    choose_rate 170 [['7', '9'], ['8', '1']] = choose_rate 170 [['8', '1']] :=
  ⟨choose_rate_spec.2.2.2.1 ['1', '2', '0'] [] (by decide),
   choose_rate_spec.2.2.2.2 ['7', '9'] [['8', '1']] (by decide) (by decide)⟩

/-- C6: behavior of the mode prompt: matching is case-insensitive (the
input is stripped and upper-cased before comparison), so `b` normalizes
to `B` (Both); blank defaults to `S` (Speak); an unrecognized input such
as `X` re-prompts; exactly the inputs normalizing to `S`, `R` or `B` are
accepted, and the accepted value is the normalized letter. -/
theorem choose_mode_spec :
    (∀ rest, choose_mode (['b'] :: rest) = some (strB, rest)) ∧
    (∀ rest, choose_mode ([] :: rest) = some (strS, rest)) ∧
    (∀ rest, choose_mode (['X'] :: rest) = choose_mode rest) ∧
    (∀ s rest, (upperC (stripC s) = strS ∨ upperC (stripC s) = strR ∨ upperC (stripC s) = strB) →
      choose_mode (s :: rest) = some (upperC (stripC s), rest)) ∧
    (∀ s rest, upperC (stripC s) ≠ [] →
      ¬(upperC (stripC s) = strS ∨ upperC (stripC s) = strR ∨ upperC (stripC s) = strB) →
      choose_mode (s :: rest) = choose_mode rest) := by
  refine ⟨fun rest => rfl, fun rest => rfl, fun rest => rfl, ?_, ?_⟩
  · intro s rest h
    have hne : upperC (stripC s) ≠ [] := by
      rcases h with h | h | h <;> rw [h] <;> decide
    simp only [choose_mode]
    rw [if_neg hne, if_pos h]
  · intro s rest hne h
    simp only [choose_mode]
    rw [if_neg hne, if_neg h]

/-- Witness for C6's conditional clauses at concrete inputs: `r`
normalizes to `R` and is accepted; `zz` is rejected and re-prompts. -/
theorem choose_mode_spec_witness :
    choose_mode [['r']] = some (upperC (stripC ['r']), []) ∧
    choose_mode [['z', 'z'], ['s']] = choose_mode [['s']] :=
  ⟨choose_mode_spec.2.2.2.1 ['r'] [] (by decide),
   choose_mode_spec.2.2.2.2 ['z', 'z'] [['s']] (by decide) (by decide)⟩

/-- C10: behavior of the voice prompt: with an empty voice list the
default (`none`) is returned immediately without consuming any input;
otherwise blank input returns the default, a digit input `i` is accepted
exactly when `i < number of voices` and then yields the id of the `i`-th
enumerated voice, and negative, out-of-range or non-numeric input
re-prompts (a minus sign is not a digit, so negative input falls under
non-numeric). -/
theorem choose_voice_spec :
    (∀ inputs, choose_voice [] inputs = some (none, inputs)) ∧
    (∀ vs rest, vs ≠ [] → choose_voice vs ([] :: rest) = some (none, rest)) ∧
    (∀ (vs : List Voice) s rest (h1 : isdigitC (stripC s) = true)
      (h2 : toNatC (stripC s) < vs.length),
      choose_voice vs (s :: rest) = some (some ((vs.get ⟨toNatC (stripC s), h2⟩).id), rest)) ∧
    (∀ (vs : List Voice) s rest, vs ≠ [] → stripC s ≠ [] →
      ¬(isdigitC (stripC s) = true ∧ toNatC (stripC s) < vs.length) →
      choose_voice vs (s :: rest) = choose_voice vs rest) := by
  have hnil : ∀ (vs : List Voice), vs ≠ [] → list_voices vs ≠ [] := by
    intro vs h he
    have := list_voices_aux_length vs 0
    rw [show list_voices_aux 0 vs = list_voices vs from rfl, he] at this
    exact h (List.eq_nil_of_length_eq_zero this.symm)
  refine ⟨fun inputs => rfl, ?_, ?_, ?_⟩
  · intro vs rest h
    simp only [choose_voice]
    rw [if_neg (hnil vs h), choose_voice_loop]
    rw [if_pos (show stripC [] = [] from rfl)]
  · intro vs s rest h1 h2
    have hvs : vs ≠ [] := by
      intro he
      rw [he] at h2
      simp at h2
    have hlen : toNatC (stripC s) < (list_voices vs).length := by
      rw [show list_voices vs = list_voices_aux 0 vs from rfl, list_voices_aux_length]
      exact h2
    have hne : stripC s ≠ [] := by
      intro he
      rw [he] at h1
      exact absurd h1 (by decide)
    simp only [choose_voice]
    rw [if_neg (hnil vs hvs), choose_voice_loop]
    rw [if_neg hne, dif_pos ⟨h1, hlen⟩]
    simp only [list_voices] at hlen ⊢
    rw [list_voices_aux_get_id vs 0 (toNatC (stripC s)) h2 hlen]
  · intro vs s rest hvs hne h
    have h' : ¬(isdigitC (stripC s) = true ∧ toNatC (stripC s) < (list_voices vs).length) := by
      rw [show list_voices vs = list_voices_aux 0 vs from rfl, list_voices_aux_length]
      exact h
    simp only [choose_voice, if_neg (hnil vs hvs)]
    conv_lhs => rw [choose_voice_loop]
    rw [if_neg hne, dif_neg h']

/-- Witness for C10's conditional clauses at concrete inputs, over a
two-voice engine: blank input returns the default; input `1` returns the
second voice's id; input `5` is out of range and re-prompts. -/
theorem choose_voice_spec_witness :
    choose_voice [⟨['A'], ['x']⟩, ⟨[], ['y']⟩] ([] :: [['1']]) = some (none, [['1']]) ∧
    choose_voice [⟨['A'], ['x']⟩, ⟨[], ['y']⟩] [['1']] =
      some (some (([⟨['A'], ['x']⟩, ⟨[], ['y']⟩] :
        List Voice).get ⟨toNatC (stripC ['1']), by decide⟩).id, []) ∧
    choose_voice [⟨['A'], ['x']⟩, ⟨[], ['y']⟩] (['5'] :: [[]]) =
      choose_voice [⟨['A'], ['x']⟩, ⟨[], ['y']⟩] [[]] :=
  ⟨choose_voice_spec.2.1 [⟨['A'], ['x']⟩, ⟨[], ['y']⟩] [['1']] (by decide),
   choose_voice_spec.2.2.1 [⟨['A'], ['x']⟩, ⟨[], ['y']⟩] ['1'] [] (by decide) (by decide),
   choose_voice_spec.2.2.2 [⟨['A'], ['x']⟩, ⟨[], ['y']⟩] ['5'] [[]] (by decide) (by decide) (by decide)⟩

/-- C4: the save-format prompt is only ever reached when the chosen mode
records AND ffmpeg is detected.  First clause: with ffmpeg undetected,
`choose_save_format` returns `wav` consuming no input (no prompt),
regardless of mode.  Second clause: whenever the first three prompts
succeed and either the mode does not record or ffmpeg is undetected, the
collected settings carry `save_format = wav` and the input stream after
the mode prompt is returned untouched (no save-format prompt occurred). -/
theorem collect_settings_save_format :
    (∀ inputs, choose_save_format false inputs = some (strWav, inputs)) ∧
    (∀ voices ffmpeg inputs v i1 r i2 m i3,
      choose_voice voices inputs = some (v, i1) →
      choose_rate 170 i1 = some (r, i2) →
      choose_mode i2 = some (m, i3) →
      ((m = strR ∨ m = strB) → ffmpeg = false) →
      collect_settings voices ffmpeg inputs = some (⟨v, r, m, strWav⟩, i3)) := by
  constructor
  · intro inputs; rfl
  · intro voices ffmpeg inputs v i1 r i2 m i3 hv hr hm hcond
    simp only [collect_settings, hv, hr, hm]
    by_cases hrec : m = strR ∨ m = strB
    · rw [if_pos hrec, hcond hrec]
      rfl
    · rw [if_neg hrec]

/-- Witness for C4 at a concrete input: no voices, ffmpeg undetected,
inputs blank then `r`: the mode records but ffmpeg is absent, so the
settings come back with `save_format = wav` and no input line is consumed
by the save-format step. -/
theorem collect_settings_save_format_witness :
    choose_save_format false [['m', 'p', '3']] = some (strWav, [['m', 'p', '3']]) ∧
    collect_settings [] false [[], ['r']] = some (⟨none, 170, strR, strWav⟩, []) :=
  ⟨collect_settings_save_format.1 [['m', 'p', '3']],
   collect_settings_save_format.2 [] false [[], ['r']] none [[], ['r']] 170 [['r']]
     strR [] (by decide) (by decide) (by decide) (fun _ => rfl)⟩

-- ### Recording, transcoding and the main pipeline (src/main.py lines 228-337)

/-- File extension of an output file. -/
inductive FileExt
  | wav
  | mp3
deriving DecidableEq

/-- An output file path `{base}_part{idx:03d}.{ext}` in the output
directory, embedded structurally (stem, part number, extension). -/
structure OutPath where
  stem : PyStr
  partIdx : Nat
  ext : FileExt
deriving DecidableEq

/-- The output directory's contents: files in the order they were
written, each with its content (audio content is embedded as the chunk
text it was synthesized from). -/
abbrev FileSys := List (OutPath × PyStr)

/-- Look a file up on disk (first write wins; in the modelled runs every
path is written at most once). -/
def diskGet (d : FileSys) (p : OutPath) : Option PyStr :=
  (d.find? (fun e => e.1 == p)).map Prod.snd

/-- The path `ffmpeg -y -i w.wav w.mp3` writes, i.e. Python's
`wav_file.with_suffix(".mp3")`. -/
def mp3Of (w : OutPath) : OutPath := { w with ext := FileExt.mp3 }

/-- Write loop of `save_wav_chunks` (src/main.py lines 247-250) with the
`enumerate(..., start=i)` counter explicit: one wav file per chunk, in
chunk order, whose synthesized content is the chunk text. -/
def save_wav_aux (base : PyStr) : Nat → List PyStr → FileSys
  | _, [] => []
  | i, c :: cs => (⟨base, i, FileExt.wav⟩, c) :: save_wav_aux base (i + 1) cs

/-- Embedding of `save_wav_chunks` (src/main.py lines 238-252): chunk the
text (default size 1200), queue one wav file per chunk and return the
list of paths; the engine's queued writes land on disk when the caller
flushes (`runAndWait`), embedded here as immediate appended writes. -/
def save_wav_chunks (text base : PyStr) (disk : FileSys) : List OutPath × FileSys :=
  ((save_wav_aux base 1 (chunk_text text 1200)).map Prod.fst,
    disk ++ save_wav_aux base 1 (chunk_text text 1200))

/-- Embedding of `convert_wav_to_mp3` (src/main.py lines 255-267): invoke
ffmpeg on one wav file.  `ok` gives the transcoder's success per part
number; on success the mp3 file is written (content transcoded from the
wav input), on non-zero exit `subprocess.run(..., check=True)` raises,
embedded as `Except.error` carrying the disk unchanged by the failed
call. -/
def convert_wav_to_mp3 (ok : Nat → Bool) (disk : FileSys) (w : OutPath) :
    Except FileSys (OutPath × FileSys) :=
  if ok w.partIdx then
    Except.ok (mp3Of w, disk ++ [(mp3Of w, (diskGet disk w).getD [])])
  else Except.error disk

/-- The list comprehension `[convert_wav_to_mp3(w) for w in wav_files]`
(src/main.py line 318): converts left to right, propagating the first
raised error. -/
def convertAll (ok : Nat → Bool) : List OutPath → FileSys → Except FileSys (List OutPath × FileSys)
  | [], disk => Except.ok ([], disk)
  | w :: ws, disk =>
    match convert_wav_to_mp3 ok disk w with
    | Except.error d => Except.error d
    | Except.ok (m, d1) =>
      match convertAll ok ws d1 with
      | Except.error d => Except.error d
      | Except.ok (ms, d2) => Except.ok (m :: ms, d2)

/-- The record branch of `main` (src/main.py lines 308-320): write the
wav chunks, then, when the chosen format is mp3, convert every wav file;
otherwise the saved files are the wav files themselves. -/
def recordPhase (ok : Nat → Bool) (text base : PyStr) (fmt : PyStr) :
    Except FileSys (List OutPath × FileSys) :=
  if fmt = strMp3 then
    convertAll ok (save_wav_chunks text base []).1 (save_wav_chunks text base []).2
  else Except.ok (save_wav_chunks text base [])

/-- Observable events of a run of `main`. -/
inductive RunEvent
  | pageProgress (i total chars : Nat)
  | exitNoTextMsg
  | engineInit
  | prompt
  | recordStart
  | speakStart
deriving DecidableEq

/-- How a run of `main` ends. -/
inductive RunOutcome
  | exitNoText
  | blocked
  | transcodeFail (disk : FileSys)
  | done (saved : List OutPath) (disk : FileSys)
deriving DecidableEq

/-- The per-page progress lines printed by `extract_pdf_text`
(src/main.py line 80). -/
def pageEvents (pages : List PyStr) : List RunEvent :=
  pages.enum.map (fun p => RunEvent.pageProgress (p.1 + 1) pages.length (stripC p.2).length)

/-- The speak branch of `main` (src/main.py lines 323-328): a fresh
engine instance is initialized when the mode speaks. -/
def speakEvts (s : TTSSettings) (evts : List RunEvent) : List RunEvent :=
  if s.mode = strS ∨ s.mode = strB then evts ++ [RunEvent.speakStart, RunEvent.engineInit]
  else evts

/-- `main` after the settings are collected (src/main.py lines 300-337):
record (and possibly transcode) when the mode records, then speak when
the mode speaks; a transcoding error propagates uncaught and aborts the
run.  `nPrompts` is the number of stdin lines the prompts consumed. -/
def mainWithSettings (ok : Nat → Bool) (text base : PyStr) (pEvts : List RunEvent)
    (nPrompts : Nat) (s : TTSSettings) : List RunEvent × RunOutcome :=
  if s.mode = strR ∨ s.mode = strB then
    match recordPhase ok text base s.save_format with
    | Except.error d =>
      (pEvts ++ RunEvent.engineInit :: List.replicate nPrompts RunEvent.prompt ++
        [RunEvent.recordStart, RunEvent.engineInit], RunOutcome.transcodeFail d)
    | Except.ok pair =>
      (speakEvts s (pEvts ++ RunEvent.engineInit :: List.replicate nPrompts RunEvent.prompt ++
        [RunEvent.recordStart, RunEvent.engineInit]), RunOutcome.done pair.1 pair.2)
  else
    (speakEvts s (pEvts ++ RunEvent.engineInit :: List.replicate nPrompts RunEvent.prompt),
      RunOutcome.done [] [])

/-- Embedding of `main` (src/main.py lines 282-337) after a PDF has been
selected: extract the text from the pages; when it is empty, exit with a
message (`raise SystemExit`) before any engine is initialized or prompt
issued; otherwise initialize the engine, collect the settings from the
typed input lines, and run the record and speak phases. -/
def mainRun (pages : List PyStr) (voices : List Voice) (ffmpeg : Bool) (ok : Nat → Bool)
    (inputs : List PyStr) (base : PyStr) : List RunEvent × RunOutcome :=
  if extract_pdf_text pages = [] then
    (pageEvents pages ++ [RunEvent.exitNoTextMsg], RunOutcome.exitNoText)
  else
    match collect_settings voices ffmpeg inputs with
    | none =>
      (pageEvents pages ++ RunEvent.engineInit :: List.replicate inputs.length RunEvent.prompt,
        RunOutcome.blocked)
    | some (s, rest) =>
      mainWithSettings ok (extract_pdf_text pages) base (pageEvents pages)
        (inputs.length - rest.length) s

-- ### Lemmas about the filesystem model and the conversion loop

lemma diskGet_cons (x : OutPath × PyStr) (d : FileSys) (p : OutPath) :
    diskGet (x :: d) p = if x.1 == p then some x.2 else diskGet d p := by
  by_cases hx : (x.1 == p) = true
  · simp [diskGet, List.find?_cons_of_pos, hx]
  · have hx' : (x.1 == p) = false := by simpa using hx
    simp [diskGet, List.find?_cons_of_neg, hx']

lemma diskGet_append_of_isSome : ∀ (d e : FileSys) (p : OutPath),
    (diskGet d p).isSome → diskGet (d ++ e) p = diskGet d p := by
  intro d
  induction d with
  | nil => intro e p h; simp [diskGet] at h
  | cons x d ih =>
    intro e p h
    rw [List.cons_append, diskGet_cons, diskGet_cons]
    by_cases hx : (x.1 == p) = true
    · rw [if_pos hx, if_pos hx]
    · rw [diskGet_cons, if_neg hx] at h
      rw [if_neg hx, if_neg hx]
      exact ih e p h

lemma diskGet_isSome_of_mem : ∀ (d : FileSys) (p : OutPath),
    p ∈ d.map Prod.fst → (diskGet d p).isSome := by
  intro d
  induction d with
  | nil => intro p h; simp at h
  | cons x d ih =>
    intro p h
    rw [diskGet_cons]
    by_cases hx : (x.1 == p) = true
    · rw [if_pos hx]; rfl
    · rw [if_neg hx]
      rw [List.map_cons] at h
      rcases List.mem_cons.mp h with h1 | h1
      · exact absurd (by simp [h1]) hx
      · exact ih p h1

lemma convertAll_fail (ok : Nat → Bool) (bad : OutPath) (hbad : ok bad.partIdx = false) :
    ∀ (good rest : List OutPath) (d : FileSys),
    (∀ w ∈ good, ok w.partIdx = true) → (∀ w ∈ good, (diskGet d w).isSome) →
    convertAll ok (good ++ bad :: rest) d =
      Except.error (d ++ good.map fun w => (mp3Of w, (diskGet d w).getD [])) := by
  intro good
  induction good with
  | nil =>
    intro rest d _ _
    simp [convertAll, convert_wav_to_mp3, hbad]
  | cons w good' ih =>
    intro rest d hg hs
    have hw : ok w.partIdx = true := hg w (by simp)
    simp only [List.cons_append, List.append_eq, convertAll, convert_wav_to_mp3, hw, if_true]
    rw [ih rest (d ++ [(mp3Of w, (diskGet d w).getD [])])
      (fun u hu => hg u (by simp [hu]))
      (fun u hu => by
        rw [diskGet_append_of_isSome d _ u (hs u (by simp [hu]))]
        exact hs u (by simp [hu]))]
    have hmap : good'.map
        (fun u => (mp3Of u, (diskGet (d ++ [(mp3Of w, (diskGet d w).getD [])]) u).getD []))
        = good'.map (fun u => (mp3Of u, (diskGet d u).getD [])) := by
      apply List.map_congr_left
      intro u hu
      rw [diskGet_append_of_isSome d _ u (hs u (by simp [hu]))]
    rw [hmap, List.append_assoc, List.singleton_append]
    simp [List.map_cons]

lemma convertAll_ok_all (ok : Nat → Bool) :
    ∀ (ws : List OutPath) (d : FileSys),
    (∀ w ∈ ws, ok w.partIdx = true) → (∀ w ∈ ws, (diskGet d w).isSome) →
    convertAll ok ws d =
      Except.ok (ws.map mp3Of, d ++ ws.map fun w => (mp3Of w, (diskGet d w).getD [])) := by
  intro ws
  induction ws with
  | nil => intro d _ _; simp [convertAll]
  | cons w ws' ih =>
    intro d hg hs
    have hw : ok w.partIdx = true := hg w (by simp)
    simp only [convertAll, convert_wav_to_mp3, hw, if_true, List.append_eq]
    rw [ih (d ++ [(mp3Of w, (diskGet d w).getD [])])
      (fun u hu => hg u (by simp [hu]))
      (fun u hu => by
        rw [diskGet_append_of_isSome d _ u (hs u (by simp [hu]))]
        exact hs u (by simp [hu]))]
    have hmap : ws'.map
        (fun u => (mp3Of u, (diskGet (d ++ [(mp3Of w, (diskGet d w).getD [])]) u).getD []))
        = ws'.map (fun u => (mp3Of u, (diskGet d u).getD [])) := by
      apply List.map_congr_left
      intro u hu
      rw [diskGet_append_of_isSome d _ u (hs u (by simp [hu]))]
    rw [hmap, List.append_assoc, List.singleton_append]
    simp [List.map_cons]

/-- The wav files `save_wav_chunks` writes for a text, with their
contents, starting from an empty output directory. -/
def wavDiskOf (base text : PyStr) : FileSys := save_wav_aux base 1 (chunk_text text 1200)

/-- The wav file paths `save_wav_chunks` returns for a text, in chunk
order. -/
def wavFilesOf (base text : PyStr) : List OutPath := (wavDiskOf base text).map Prod.fst

lemma save_wav_chunks_nil (text base : PyStr) :
    save_wav_chunks text base [] = (wavFilesOf base text, wavDiskOf base text) := by
  simp [save_wav_chunks, wavFilesOf, wavDiskOf]

lemma save_wav_chunks_nil_fst (text base : PyStr) :
    (save_wav_chunks text base []).1 = wavFilesOf base text := by
  rw [save_wav_chunks_nil]

lemma save_wav_chunks_nil_snd (text base : PyStr) :
    (save_wav_chunks text base []).2 = wavDiskOf base text := by
  rw [save_wav_chunks_nil]

lemma mainRun_eq_settings (pages : List PyStr) (voices : List Voice) (ffmpeg : Bool)
    (ok : Nat → Bool) (inputs : List PyStr) (base : PyStr) (s : TTSSettings)
    (rest : List PyStr)
    (htext : extract_pdf_text pages ≠ [])
    (hset : collect_settings voices ffmpeg inputs = some (s, rest)) :
    mainRun pages voices ffmpeg ok inputs base =
      mainWithSettings ok (extract_pdf_text pages) base (pageEvents pages)
        (inputs.length - rest.length) s := by
  simp only [mainRun]
  rw [if_neg htext, hset]

/-- C2: for every run in which extraction yields the empty string, the
program exits with a user-facing message right after the page progress
output: the trace ends at the exit message and contains no engine
initialization and no prompt, so no settings collection and no engine
operation after extraction is ever reached. -/
theorem mainRun_empty_text (pages : List PyStr) (voices : List Voice) (ffmpeg : Bool)
    (ok : Nat → Bool) (inputs : List PyStr) (base : PyStr)
    (h : extract_pdf_text pages = []) :
    mainRun pages voices ffmpeg ok inputs base =
      (pageEvents pages ++ [RunEvent.exitNoTextMsg], RunOutcome.exitNoText) ∧
    RunEvent.engineInit ∉ pageEvents pages ++ [RunEvent.exitNoTextMsg] ∧
    RunEvent.prompt ∉ pageEvents pages ++ [RunEvent.exitNoTextMsg] := by
  refine ⟨?_, ?_, ?_⟩
  · simp only [mainRun]
    rw [if_pos h]
  · simp [pageEvents]
  · simp [pageEvents]

/-- Witness for C2 at a concrete input: a one-page document whose page is
whitespace only, so extraction yields the empty string. -/
theorem mainRun_empty_text_witness :
    extract_pdf_text [[' ', '\t']] = [] ∧
    (mainRun [[' ', '\t']] [] true (fun _ => true) [] ['b'] =
      (pageEvents [[' ', '\t']] ++ [RunEvent.exitNoTextMsg], RunOutcome.exitNoText) ∧
    RunEvent.engineInit ∉ pageEvents [[' ', '\t']] ++ [RunEvent.exitNoTextMsg] ∧
    RunEvent.prompt ∉ pageEvents [[' ', '\t']] ++ [RunEvent.exitNoTextMsg]) :=
  ⟨by decide, mainRun_empty_text [[' ', '\t']] [] true (fun _ => true) [] ['b'] (by decide)⟩

/-- C7: in a recording run with save format mp3, if ffmpeg exits non-zero
on some chunk (the first failing chunk being `bad`, after the successful
prefix `good`), the error propagates as a hard abort: the run ends in
`transcodeFail`, and the disk at that point still holds every wav file
with its original content (the whole `wavDiskOf` prefix) together with
the mp3 files already produced for the chunks before the failure —
nothing is cleaned up, nothing is retried. -/
theorem mainRun_transcode_abort (pages : List PyStr) (voices : List Voice) (ffmpeg : Bool)
    (ok : Nat → Bool) (inputs : List PyStr) (base : PyStr) (s : TTSSettings)
    (rest : List PyStr) (good : List OutPath) (bad : OutPath) (rest2 : List OutPath)
    (htext : extract_pdf_text pages ≠ [])
    (hset : collect_settings voices ffmpeg inputs = some (s, rest))
    (hmode : s.mode = strR ∨ s.mode = strB)
    (hfmt : s.save_format = strMp3)
    (hsplit : wavFilesOf base (extract_pdf_text pages) = good ++ bad :: rest2)
    (hgood : ∀ w ∈ good, ok w.partIdx = true)
    (hbad : ok bad.partIdx = false) :
    ∃ tr, mainRun pages voices ffmpeg ok inputs base =
      (tr, RunOutcome.transcodeFail (wavDiskOf base (extract_pdf_text pages) ++
        good.map fun w =>
          (mp3Of w, (diskGet (wavDiskOf base (extract_pdf_text pages)) w).getD []))) := by
  have hsome : ∀ w ∈ good, (diskGet (wavDiskOf base (extract_pdf_text pages)) w).isSome := by
    intro w hw
    apply diskGet_isSome_of_mem
    show w ∈ wavFilesOf base (extract_pdf_text pages)
    rw [hsplit]
    exact List.mem_append_left _ hw
  rw [mainRun_eq_settings pages voices ffmpeg ok inputs base s rest htext hset]
  simp only [mainWithSettings]
  rw [if_pos hmode]
  simp only [recordPhase]
  rw [if_pos hfmt, save_wav_chunks_nil_fst, save_wav_chunks_nil_snd, hsplit,
    convertAll_fail ok bad hbad good rest2 _ hgood hsome]
  exact ⟨_, rfl⟩

/-- Witness for C7 at a concrete run: one page reading `hi`, no voices,
ffmpeg detected, inputs blank / `r` / `mp3`, and a transcoder that fails
on every invocation: the run aborts with the single wav file still on
disk and no mp3 produced. -/
theorem mainRun_transcode_abort_witness :
    ∃ tr, mainRun [['h', 'i']] [] true (fun _ => false) [[], ['r'], ['m', 'p', '3']] ['b'] =
      (tr, RunOutcome.transcodeFail (wavDiskOf ['b'] (extract_pdf_text [['h', 'i']]) ++
        ([] : List OutPath).map fun w =>
          (mp3Of w, (diskGet (wavDiskOf ['b'] (extract_pdf_text [['h', 'i']])) w).getD []))) :=
  mainRun_transcode_abort [['h', 'i']] [] true (fun _ => false) [[], ['r'], ['m', 'p', '3']]
    ['b'] ⟨none, 170, strR, strMp3⟩ [] [] ⟨['b'], 1, FileExt.wav⟩ []
    (by decide) (by decide) (Or.inl rfl) rfl (by decide) (fun w hw => absurd hw (List.not_mem_nil w))
    rfl

/-- C9: in a recording run in which every transcoder invocation succeeds:
with save format mp3 the wav files written for the chunks are never
deleted — the final disk is the full wav listing followed by the mp3
files — while the reported saved-files list contains only the mp3 files,
one per chunk in chunk order; with save format wav the reported list is
exactly the wav files, one per chunk in chunk order, and the disk holds
exactly those wav files. -/
theorem mainRun_record_files (pages : List PyStr) (voices : List Voice) (ffmpeg : Bool)
    (ok : Nat → Bool) (inputs : List PyStr) (base : PyStr) (s : TTSSettings)
    (rest : List PyStr)
    (htext : extract_pdf_text pages ≠ [])
    (hset : collect_settings voices ffmpeg inputs = some (s, rest))
    (hmode : s.mode = strR ∨ s.mode = strB)
    (hok : ∀ n, ok n = true) :
    ∃ tr saved disk, mainRun pages voices ffmpeg ok inputs base =
        (tr, RunOutcome.done saved disk) ∧
      (s.save_format = strMp3 →
        saved = (wavFilesOf base (extract_pdf_text pages)).map mp3Of ∧
        disk = wavDiskOf base (extract_pdf_text pages) ++
          (wavFilesOf base (extract_pdf_text pages)).map fun w =>
            (mp3Of w, (diskGet (wavDiskOf base (extract_pdf_text pages)) w).getD [])) ∧
      (s.save_format = strWav →
        saved = wavFilesOf base (extract_pdf_text pages) ∧
        disk = wavDiskOf base (extract_pdf_text pages)) := by
  have hsome : ∀ w ∈ wavFilesOf base (extract_pdf_text pages),
      (diskGet (wavDiskOf base (extract_pdf_text pages)) w).isSome := by
    intro w hw
    exact diskGet_isSome_of_mem _ _ hw
  rw [mainRun_eq_settings pages voices ffmpeg ok inputs base s rest htext hset]
  simp only [mainWithSettings]
  rw [if_pos hmode]
  simp only [recordPhase]
  by_cases hf : s.save_format = strMp3
  · rw [if_pos hf, save_wav_chunks_nil_fst, save_wav_chunks_nil_snd,
      convertAll_ok_all ok _ _ (fun w _ => hok w.partIdx) hsome]
    refine ⟨_, _, _, rfl, fun _ => ⟨rfl, rfl⟩, fun hw => ?_⟩
    rw [hw] at hf
    exact absurd hf (by decide)
  · rw [if_neg hf, save_wav_chunks_nil]
    exact ⟨_, _, _, rfl, fun hw => absurd hw hf, fun _ => ⟨rfl, rfl⟩⟩

/-- Witness for C9 at a concrete run: one page reading `hi`, no voices,
ffmpeg detected, inputs blank / `r` / `mp3`, transcoder always
succeeding. -/
theorem mainRun_record_files_witness :
    ∃ tr saved disk, mainRun [['h', 'i']] [] true (fun _ => true) [[], ['r'], ['m', 'p', '3']]
        ['b'] = (tr, RunOutcome.done saved disk) ∧
      ((⟨none, 170, strR, strMp3⟩ : TTSSettings).save_format = strMp3 →
        saved = (wavFilesOf ['b'] (extract_pdf_text [['h', 'i']])).map mp3Of ∧
        disk = wavDiskOf ['b'] (extract_pdf_text [['h', 'i']]) ++
          (wavFilesOf ['b'] (extract_pdf_text [['h', 'i']])).map fun w =>
            (mp3Of w, (diskGet (wavDiskOf ['b'] (extract_pdf_text [['h', 'i']])) w).getD [])) ∧
      ((⟨none, 170, strR, strMp3⟩ : TTSSettings).save_format = strWav →
        saved = wavFilesOf ['b'] (extract_pdf_text [['h', 'i']]) ∧
        disk = wavDiskOf ['b'] (extract_pdf_text [['h', 'i']])) :=
  mainRun_record_files [['h', 'i']] [] true (fun _ => true) [[], ['r'], ['m', 'p', '3']] ['b']
    ⟨none, 170, strR, strMp3⟩ [] (by decide) (by decide) (Or.inl rfl) (fun _ => rfl)
